import Mathlib

/-
Verification development for the point-cloud-to-watertight-mesh pipeline
implemented in src/src/mesh_processing/mesh_converter.py (class MeshConverter).

Modelling conventions:
* Coordinates are rationals (ℚ) standing for the doubles of the source;
  overflow and rounding of IEEE floats are not modelled.
* A mesh is a vertex list plus a triangle list of index triples, exactly the
  two arrays the source passes between Open3D and trimesh.
* Calls into the Open3D / trimesh / numpy / pathlib libraries that the claims
  treat as opaque steps are fields of explicit record parameters
  (O3dLib, TrimeshLib); calls whose behaviour the claims themselves describe
  (cleaning passes, quantile, path surgery, export) are modelled concretely,
  each marked with the documentation it was modelled from.
* File-system paths are lists of characters; printed messages are collected in
  string logs so that the information returned to the caller is explicit.
-/

/-- A 3D point or vector with rational coordinates. -/
structure Vec3 where
  x : ℚ
  y : ℚ
  z : ℚ
deriving DecidableEq

/-- A triangle as a triple of vertex indices, as in Open3D and trimesh. -/
structure Tri where
  a : ℕ
  b : ℕ
  c : ℕ
deriving DecidableEq

/-- A triangle mesh: vertex array plus triangle array.  Both the Open3D mesh
and the trimesh object of the source are carried by this one record, since
the source converts between them by passing the two arrays verbatim
(trimesh.Trimesh(vertices=..., faces=...)). -/
structure Mesh where
  vertices : List Vec3
  triangles : List Tri
deriving DecidableEq

/-- An Open3D point cloud: points plus a (possibly empty) normal array. -/
structure PointCloud where
  points : List Vec3
  normals : List Vec3
deriving DecidableEq

/-- Open3D PointCloud.has_normals: true iff the normal array is nonempty. -/
def PointCloud.has_normals (p : PointCloud) : Bool :=
  !p.normals.isEmpty

/-- A voxel occupancy grid, as produced by trimesh.Trimesh.voxelized. -/
structure VoxelGrid where
  occupied : List (Int × Int × Int)
  pitch : ℚ
deriving DecidableEq

def Vec3.zero : Vec3 := ⟨0, 0, 0⟩

def Vec3.neg (v : Vec3) : Vec3 := ⟨-v.x, -v.y, -v.z⟩

def Vec3.sub (v w : Vec3) : Vec3 := ⟨v.x - w.x, v.y - w.y, v.z - w.z⟩

def Vec3.dot (v w : Vec3) : ℚ := v.x * w.x + v.y * w.y + v.z * w.z

def Vec3.cross (v w : Vec3) : Vec3 :=
  ⟨v.y * w.z - v.z * w.y, v.z * w.x - v.x * w.z, v.x * w.y - v.y * w.x⟩

/-- Minimum of a rational list (0 on the empty list, which the source never
feeds to the bounding-box computation). -/
def listMin (l : List ℚ) : ℚ := l.foldl min (l.headD 0)

/-- Maximum of a rational list (0 on the empty list). -/
def listMax (l : List ℚ) : ℚ := l.foldl max (l.headD 0)

/-- trimesh bounding_box.extents.max(): the largest axis-aligned extent of the
vertex set. -/
def Mesh.maxExtent (m : Mesh) : ℚ :=
  let xs := m.vertices.map Vec3.x
  let ys := m.vertices.map Vec3.y
  let zs := m.vertices.map Vec3.z
  max (listMax xs - listMin xs) (max (listMax ys - listMin ys) (listMax zs - listMin zs))

/-- Four times the squared area of a triangle: squared norm of the cross
product of two edge vectors.  Used only for comparisons, for which it orders
triangles exactly as the true area does. -/
def areaSq (vs : List Vec3) (t : Tri) : ℚ :=
  let pa := vs.getD t.a Vec3.zero
  let pb := vs.getD t.b Vec3.zero
  let pc := vs.getD t.c Vec3.zero
  let u := Vec3.sub pb pa
  let w := Vec3.sub pc pa
  Vec3.dot (Vec3.cross u w) (Vec3.cross u w)

/-- numpy mean of a rational list (the source never takes the mean of an
empty distance list; 0 is returned there). -/
def mean (l : List ℚ) : ℚ :=
  if l.length = 0 then 0 else l.sum / (l.length : ℚ)

/- ---------------------------------------------------------------------
Path model: pathlib.PurePath.with_suffix / .stem / .name and os.path.join,
on paths represented as character lists.
--------------------------------------------------------------------- -/

/-- The final path component (pathlib .name): the characters after the last
slash. -/
def lastComponent (p : List Char) : List Char :=
  (p.reverse.takeWhile (fun c => c ≠ '/')).reverse

/-- Split a path into the part up to and including the last slash, and the
final component. -/
def splitLast (p : List Char) : List Char × List Char :=
  ((p.reverse.dropWhile (fun c => c ≠ '/')).reverse,
   (p.reverse.takeWhile (fun c => c ≠ '/')).reverse)

/-- pathlib suffix of a file NAME (no slashes): the substring from the last
dot, empty when the name has no dot, starts with its only dot (hidden file),
or ends with the dot.  Mirrors PurePath.suffix: i = name.rfind(dot);
return name[i:] if 0 < i < len(name) - 1 else the empty string. -/
def pySuffix (name : List Char) : List Char :=
  let r := name.reverse
  let ext := r.takeWhile (fun c => c ≠ '.')
  match r.dropWhile (fun c => c ≠ '.') with
  | [] => []
  | _ :: baseRev => if baseRev = [] ∨ ext = [] then [] else '.' :: ext.reverse

/-- pathlib PurePath.with_suffix: replace the suffix of the last component
(or append when it has none).  The validity checks of pathlib (nonempty name,
suffix starting with a dot, no separator in the suffix) are hypotheses of the
theorems that use this function. -/
def pyWithSuffix (p suffix : List Char) : List Char :=
  let dir := (splitLast p).1
  let name := (splitLast p).2
  let old := pySuffix name
  let newName :=
    if old = [] then name ++ suffix
    else name.take (name.length - old.length) ++ suffix
  dir ++ newName

/-- pathlib PurePath.stem: the last component minus its suffix. -/
def pyStem (p : List Char) : List Char :=
  let name := lastComponent p
  name.take (name.length - (pySuffix name).length)

/-- os.path.join for POSIX paths with two arguments. -/
def osPathJoin (a b : List Char) : List Char :=
  if b.head? = some '/' then b
  else if a = [] ∨ a.getLast? = some '/' then a ++ b
  else a ++ '/' :: b

/- ---------------------------------------------------------------------
External library primitives, as explicit parameters.
--------------------------------------------------------------------- -/

/-- The trimesh operations called by MeshConverter.make_watertight, kept
opaque: the source treats them as black boxes and the claims only constrain
how the source composes them. -/
structure TrimeshLib where
  is_watertight : Mesh → Bool
  fill_holes : Mesh → Mesh
  voxelized : Mesh → ℚ → VoxelGrid
  as_boxes_to_mesh : VoxelGrid → Mesh
  filter_laplacian : Mesh → Mesh

/-- The Open3D operations called by MeshConverter, kept opaque. -/
structure O3dLib where
  read_point_cloud : List Char → PointCloud
  nn_distances : PointCloud → List ℚ
  estimate_normals_hybrid : PointCloud → ℚ → ℕ → PointCloud
  orient_normals_ctp : PointCloud → ℕ → PointCloud
  create_from_point_cloud_poisson : PointCloud → ℕ → ℕ → ℚ → Bool → Mesh × List ℚ

/- ---------------------------------------------------------------------
Mesh cleaning passes.  Their implementations live inside Open3D; the spec
(section 4.3) describes their behaviour, from which they are modelled here.
--------------------------------------------------------------------- -/

/-- Indices of the vertices that survive a removal mask (mask true means
remove). -/
def keptIndices (n : ℕ) (mask : ℕ → Bool) : List ℕ :=
  (List.range n).filter (fun i => !mask i)

/-- Modelled from the spec: Open3D remove_vertices_by_mask removes every
masked vertex together with its incident triangles and reindexes the
surviving triangles. -/
def removeVerticesByMask (m : Mesh) (mask : ℕ → Bool) : Mesh :=
  let kept := keptIndices m.vertices.length mask
  let remap : ℕ → ℕ := fun i => kept.indexOf i
  { vertices := kept.filterMap (fun i => m.vertices[i]?),
    triangles :=
      (m.triangles.filter (fun t => !mask t.a && !mask t.b && !mask t.c)).map
        (fun t => ⟨remap t.a, remap t.b, remap t.c⟩) }

/-- Modelled from the spec: a degenerate triangle references a vertex more
than once; remove_degenerate_triangles drops all of them. -/
def remove_degenerate_triangles (m : Mesh) : Mesh :=
  { m with triangles :=
      m.triangles.filter (fun t =>
        decide (t.a ≠ t.b) && decide (t.b ≠ t.c) && decide (t.a ≠ t.c)) }

/-- Order-insensitive key of a triangle: its index triple sorted. -/
def sortedKey (t : Tri) : ℕ × ℕ × ℕ :=
  let lo := min t.a (min t.b t.c)
  let hi := max t.a (max t.b t.c)
  (lo, t.a + t.b + t.c - lo - hi, hi)

/-- Keep the first triangle of every class of triangles referencing the same
vertex set. -/
def dedupKeyed : List Tri → List Tri
  | [] => []
  | t :: ts => t :: dedupKeyed (ts.filter (fun u => decide (sortedKey u ≠ sortedKey t)))
termination_by l => l.length
decreasing_by
  exact Nat.lt_succ_of_le (List.length_filter_le _ _)

/-- Modelled from the spec: remove_duplicated_triangles removes triangles
that reference the same three vertices, independent of order, keeping the
first occurrence. -/
def remove_duplicated_triangles (m : Mesh) : Mesh :=
  { m with triangles := dedupKeyed m.triangles }

/-- Keep the first occurrence of every vertex value. -/
def firstDedup : List Vec3 → List Vec3
  | [] => []
  | v :: vs => v :: firstDedup (vs.filter (fun u => decide (u ≠ v)))
termination_by l => l.length
decreasing_by
  exact Nat.lt_succ_of_le (List.length_filter_le _ _)

/-- Modelled from the spec: remove_duplicated_vertices merges vertices with
identical coordinates and redirects triangle indices to the surviving copy. -/
def remove_duplicated_vertices (m : Mesh) : Mesh :=
  let nv := firstDedup m.vertices
  let remap : ℕ → ℕ := fun i =>
    match m.vertices[i]? with
    | some v => nv.indexOf v
    | none => i
  { vertices := nv,
    triangles := m.triangles.map (fun t => ⟨remap t.a, remap t.b, remap t.c⟩) }

/-- The undirected edges of a triangle, as sorted index pairs. -/
def Tri.edgeList (t : Tri) : List (ℕ × ℕ) :=
  [(min t.a t.b, max t.a t.b), (min t.b t.c, max t.b t.c), (min t.a t.c, max t.a t.c)]

/-- Number of triangles incident to an undirected edge. -/
def edgeCount (ts : List Tri) (e : ℕ × ℕ) : ℕ :=
  (ts.filter (fun t => t.edgeList.contains e)).length

/-- An edge is non-manifold when more than two triangles share it. -/
def isNonManifold (ts : List Tri) (e : ℕ × ℕ) : Bool :=
  decide (2 < edgeCount ts e)

/-- A triangle touches a non-manifold edge. -/
def touchesNonManifold (ts : List Tri) (t : Tri) : Bool :=
  t.edgeList.any (isNonManifold ts)

/-- The triangle of smallest area in a list (first among ties). -/
def minByAreaSq (vs : List Vec3) : List Tri → Option Tri
  | [] => none
  | t :: ts => some (ts.foldl (fun b u => if areaSq vs u < areaSq vs b then u else b) t)

/-- Modelled from the spec: resolve non-manifold edges by successively
deleting the smallest-area triangle adjacent to some non-manifold edge until
every edge has at most two incident triangles.  The fuel argument bounds the
iteration by the triangle count, which the deletion strictly decreases. -/
def removeNMLoop (vs : List Vec3) : ℕ → List Tri → List Tri
  | 0, ts => ts
  | Nat.succ fuel, ts =>
    let adj := ts.filter (touchesNonManifold ts)
    match minByAreaSq vs adj with
    | none => ts
    | some t => removeNMLoop vs fuel (ts.erase t)

/-- Modelled from the spec: remove_non_manifold_edges. -/
def remove_non_manifold_edges (m : Mesh) : Mesh :=
  { m with triangles := removeNMLoop m.vertices m.triangles.length m.triangles }

/-- Insert into a sorted rational list. -/
def insertSorted (x : ℚ) : List ℚ → List ℚ
  | [] => [x]
  | y :: ys => if x ≤ y then x :: y :: ys else y :: insertSorted x ys

/-- Ascending insertion sort. -/
def sortAsc (l : List ℚ) : List ℚ :=
  l.foldr insertSorted []

/-- Modelled from numpy.quantile with the default linear interpolation:
index h = q * (n - 1) into the sorted data, linearly interpolating between
the neighbouring order statistics. -/
def npQuantile (l : List ℚ) (q : ℚ) : ℚ :=
  let s := sortAsc l
  let n := s.length
  if n = 0 then 0
  else
    let h : ℚ := q * ((n : ℚ) - 1)
    let lo : ℕ := h.floor.toNat
    let frac : ℚ := h - (lo : ℚ)
    let a := s.getD lo 0
    let b := s.getD (lo + 1) a
    a + frac * (b - a)

/-- The removal mask of MeshConverter.clean_mesh: densities strictly below
the quantile threshold (numpy: densities < np.quantile(densities, q)). -/
def densityMask (d : List ℚ) (density_threshold : ℚ) : ℕ → Bool :=
  fun i => decide (d.getD i 0 < npQuantile d density_threshold)

/- ---------------------------------------------------------------------
The MeshConverter methods, translated from
src/src/mesh_processing/mesh_converter.py.
--------------------------------------------------------------------- -/

/-- MeshConverter.load_point_cloud: o3d.io.read_point_cloud(ply_path). -/
def load_point_cloud (O : O3dLib) (ply_path : List Char) : PointCloud :=
  O.read_point_cloud ply_path

/-- MeshConverter.estimate_normals: radius = 2 * mean nearest-neighbour
distance, hybrid search bounded to 30 neighbours, then consistent tangent
plane orientation with k = 15. -/
def estimate_normals (O : O3dLib) (pcd : PointCloud) : PointCloud :=
  let distances := O.nn_distances pcd
  let avg_dist := mean distances
  let radius := avg_dist * 2
  O.orient_normals_ctp (O.estimate_normals_hybrid pcd radius 30) 15

/-- MeshConverter.poisson_reconstruction: direct call into Open3D. -/
def poisson_reconstruction (O : O3dLib) (pcd : PointCloud) (depth width : ℕ)
    (scale : ℚ) (linear_fit : Bool) : Mesh × List ℚ :=
  O.create_from_point_cloud_poisson pcd depth width scale linear_fit

/-- MeshConverter.clean_mesh: when densities are given, remove the vertices
whose density is strictly below the quantile threshold, then always run the
four topology passes in source order. -/
def clean_mesh (mesh : Mesh) (densities : Option (List ℚ)) (density_threshold : ℚ) : Mesh :=
  let m1 :=
    match densities with
    | some d => removeVerticesByMask mesh (densityMask d density_threshold)
    | none => mesh
  remove_non_manifold_edges (remove_duplicated_vertices (remove_duplicated_triangles
    (remove_degenerate_triangles m1)))

/-- MeshConverter.make_watertight, together with the messages it prints:
the returned value of the source is only the mesh (the first component);
everything the caller is told about success is the print log (the second
component). -/
def make_watertight (L : TrimeshLib) (mesh : Mesh) (resolution : ℕ) : Mesh × List String :=
  let tri1 := if L.is_watertight mesh then mesh else L.fill_holes mesh
  let log1 : List String :=
    if L.is_watertight mesh then [] else ["Mesh is not watertight, attempting to fix..."]
  let tri2 :=
    if L.is_watertight tri1 then tri1
    else
      let pitch := Mesh.maxExtent tri1 / (resolution : ℚ)
      L.filter_laplacian (L.as_boxes_to_mesh (L.voxelized tri1 pitch))
  let log2 : List String :=
    if L.is_watertight tri1 then [] else ["Using voxelization to ensure watertightness..."]
  let log3 : List String :=
    if L.is_watertight tri2 then ["Mesh is now watertight!"]
    else ["Warning: Mesh may not be fully watertight"]
  (tri2, "Making mesh watertight..." :: (log1 ++ log2 ++ log3))

/-- The artefact written by trimesh export.  Modelled from the spec: the
exporter applies no coordinate transformation; vertex order and triangle
winding are written as given. -/
structure ExportRecord where
  path : List Char
  vertices : List Vec3
  faces : List Tri
deriving DecidableEq

/-- MeshConverter.save_mesh: normalize the extension with pathlib
with_suffix, export, return the normalized path (first component; the
export artefact is the second component). -/
def save_mesh (mesh : Mesh) (output_path : List Char) (file_format : List Char) :
    List Char × ExportRecord :=
  let p := pyWithSuffix output_path ('.' :: file_format)
  (p, ⟨p, mesh.vertices, mesh.triangles⟩)

/-- The pipeline stages of MeshConverter.convert_to_watertight_mesh, for
recording which work was performed. -/
inductive Stage where
  | makedirs
  | load
  | estimate
  | poisson
  | clean
  | watertight
  | save
deriving DecidableEq

/-- What MeshConverter.convert_to_watertight_mesh leaves behind: the returned
output path (the only value the source returns), the directories existing
afterwards, and the stages that ran. -/
structure ConvertResult where
  output_path : List Char
  fs : List (List Char)
  stages : List Stage
deriving DecidableEq

/-- MeshConverter.convert_to_watertight_mesh: makedirs(exist_ok=True), load,
estimate normals when absent, Poisson reconstruction (width 0, scale 1.1,
linear_fit false), optional cleaning with threshold 0.01, watertight repair
with resolution 20000, save to output_dir/stem_watertight.format. -/
def convert_to_watertight_mesh (O : O3dLib) (L : TrimeshLib) (fs0 : List (List Char))
    (ply_path output_dir : List Char) (depth : ℕ) (clean : Bool)
    (output_format : List Char) : ConvertResult :=
  let fs1 := if output_dir ∈ fs0 then fs0 else output_dir :: fs0
  let pcd := load_point_cloud O ply_path
  let pcd2 := if pcd.has_normals then pcd else estimate_normals O pcd
  let md := poisson_reconstruction O pcd2 depth 0 (11 / 10) false
  let mesh2 := if clean then clean_mesh md.1 (some md.2) (1 / 100) else md.1
  let tri_mesh := (make_watertight L mesh2 20000).1
  let base_name := pyStem ply_path
  let out0 := osPathJoin output_dir (base_name ++ "_watertight.".toList ++ output_format)
  let saved := save_mesh tri_mesh out0 output_format
  { output_path := saved.1,
    fs := fs1,
    stages :=
      [Stage.makedirs, Stage.load] ++
      (if pcd.has_normals then [] else [Stage.estimate]) ++
      [Stage.poisson] ++
      (if clean then [Stage.clean] else []) ++
      [Stage.watertight, Stage.save] }

/- ---------------------------------------------------------------------
Orientation propagation.  Modelled from the spec (section 4.1):
orient_normals_consistent_tangent_plane propagates orientation across a
spanning structure over the samples, flipping a normal whenever its dot
product with the normal of its already-processed parent is negative.
Nodes are processed in an order in which every parent precedes its child.
--------------------------------------------------------------------- -/

/-- Orient one node given the normals fixed so far: flip when the dot
product with the parent normal is negative; roots keep their candidate. -/
def orientOne (acc : List Vec3) : Option ℕ × Vec3 → Vec3
  | (none, n) => n
  | (some j, n) => if Vec3.dot n (acc.getD j Vec3.zero) < 0 then n.neg else n

/-- Process the nodes left to right, appending each oriented normal. -/
def orientGo (acc : List Vec3) : List (Option ℕ × Vec3) → List Vec3
  | [] => acc
  | e :: rest => orientGo (acc ++ [orientOne acc e]) rest

/-- Modelled from the spec: propagate consistent orientation over a list of
(parent, candidate normal) nodes, parents preceding children. -/
def orientPropagate (l : List (Option ℕ × Vec3)) : List Vec3 :=
  orientGo [] l

/- ---------------------------------------------------------------------
Concrete sample library instances and inputs, used by witnesses and
counterexamples.
--------------------------------------------------------------------- -/

/-- A small concrete mesh: one triangle. -/
def sampleMesh : Mesh :=
  { vertices := [⟨0, 0, 0⟩, ⟨1, 0, 0⟩, ⟨0, 1, 0⟩], triangles := [⟨0, 1, 2⟩] }

/-- A trimesh model that reports every mesh watertight. -/
def alwaysWT : TrimeshLib :=
  { is_watertight := fun _ => true,
    fill_holes := fun m => m,
    voxelized := fun _ _ => ⟨[], 0⟩,
    as_boxes_to_mesh := fun _ => sampleMesh,
    filter_laplacian := fun m => m }

/-- A trimesh model that reports every mesh non-watertight, whose repair
steps nevertheless reproduce the sample mesh. -/
def neverWT : TrimeshLib :=
  { is_watertight := fun _ => false,
    fill_holes := fun m => m,
    voxelized := fun _ _ => ⟨[], 0⟩,
    as_boxes_to_mesh := fun _ => sampleMesh,
    filter_laplacian := fun m => m }

/-- An Open3D model whose loader yields a two-point cloud without normals. -/
def sampleO3d : O3dLib :=
  { read_point_cloud := fun _ => ⟨[⟨0, 0, 0⟩, ⟨1, 0, 0⟩], []⟩,
    nn_distances := fun p => p.points.map (fun _ => 1),
    estimate_normals_hybrid := fun p _ _ => ⟨p.points, p.points.map (fun _ => ⟨0, 0, 1⟩)⟩,
    orient_normals_ctp := fun p _ => p,
    create_from_point_cloud_poisson := fun _ _ _ _ _ => (sampleMesh, [1]) }

/- ---------------------------------------------------------------------
Claim theorems.
--------------------------------------------------------------------- -/

/-- C3: for every mesh that enters make_watertight non-watertight, hole
filling is attempted first (the attempt message is printed); the result is
the hole-filled mesh when that sufficed, and otherwise the Laplacian
smoothing of the box mesh rebuilt from the voxelization of the hole-filled
mesh at pitch = longest bounding-box extent / resolution; the voxelization
branch is not taken when hole filling already achieved watertightness. -/
theorem claim_C3 (L : TrimeshLib) (mesh : Mesh) (res : ℕ)
    (h : L.is_watertight mesh = false) :
    (make_watertight L mesh res).1 =
      (if L.is_watertight (L.fill_holes mesh) then L.fill_holes mesh
       else L.filter_laplacian (L.as_boxes_to_mesh (L.voxelized (L.fill_holes mesh)
         (Mesh.maxExtent (L.fill_holes mesh) / (res : ℚ))))) ∧
    "Mesh is not watertight, attempting to fix..." ∈ (make_watertight L mesh res).2 ∧
    (L.is_watertight (L.fill_holes mesh) = true →
      "Using voxelization to ensure watertightness..." ∉ (make_watertight L mesh res).2) := by
  cases hw : L.is_watertight (L.fill_holes mesh) <;>
    simp [make_watertight, h, hw]

/-- Witness for C3 at a concrete trimesh model that never reports
watertightness, on the sample mesh. -/
theorem claim_C3_witness :
    neverWT.is_watertight sampleMesh = false ∧
    ((make_watertight neverWT sampleMesh 20000).1 =
      (if neverWT.is_watertight (neverWT.fill_holes sampleMesh) then
        neverWT.fill_holes sampleMesh
       else neverWT.filter_laplacian (neverWT.as_boxes_to_mesh (neverWT.voxelized
         (neverWT.fill_holes sampleMesh)
         (Mesh.maxExtent (neverWT.fill_holes sampleMesh) / (20000 : ℚ))))) ∧
    "Mesh is not watertight, attempting to fix..." ∈ (make_watertight neverWT sampleMesh 20000).2 ∧
    (neverWT.is_watertight (neverWT.fill_holes sampleMesh) = true →
      "Using voxelization to ensure watertightness..." ∉
        (make_watertight neverWT sampleMesh 20000).2)) :=
  ⟨rfl, claim_C3 neverWT sampleMesh 20000 rfl⟩

/-- C4: an already-watertight mesh is returned as-is, the print log shows
that neither hole filling nor voxelization nor smoothing ran, and repairing
twice equals repairing once. -/
theorem claim_C4 (L : TrimeshLib) (mesh : Mesh) (res : ℕ)
    (h : L.is_watertight mesh = true) :
    (make_watertight L mesh res).1 = mesh ∧
    (make_watertight L mesh res).2 = ["Making mesh watertight...", "Mesh is now watertight!"] ∧
    (make_watertight L (make_watertight L mesh res).1 res).1 =
      (make_watertight L mesh res).1 := by
  simp [make_watertight, h]

/-- Witness for C4 at a concrete trimesh model that always reports
watertightness, on the sample mesh. -/
theorem claim_C4_witness :
    alwaysWT.is_watertight sampleMesh = true ∧
    ((make_watertight alwaysWT sampleMesh 20000).1 = sampleMesh ∧
    (make_watertight alwaysWT sampleMesh 20000).2 =
      ["Making mesh watertight...", "Mesh is now watertight!"] ∧
    (make_watertight alwaysWT (make_watertight alwaysWT sampleMesh 20000).1 20000).1 =
      (make_watertight alwaysWT sampleMesh 20000).1) :=
  ⟨rfl, claim_C4 alwaysWT sampleMesh 20000 rfl⟩

/-- C1, counterexample: make_watertight returns only a mesh and
convert_to_watertight_mesh returns only an output path, with no status flag.
A repair run that achieves watertightness and one that terminates in the
failed state produce identical return values, so the outcome reaches the
caller by silent substitution, refuting the claim that an explicit status
flag accompanies the returned mesh. -/
theorem claim_C1_counterexample :
    (make_watertight alwaysWT sampleMesh 20000).1 = (make_watertight neverWT sampleMesh 20000).1 ∧
    alwaysWT.is_watertight (make_watertight alwaysWT sampleMesh 20000).1 = true ∧
    neverWT.is_watertight (make_watertight neverWT sampleMesh 20000).1 = false ∧
    (convert_to_watertight_mesh sampleO3d alwaysWT [] ("cloud.ply".toList)
      ("data/output".toList) 9 true ("obj".toList)).output_path =
    (convert_to_watertight_mesh sampleO3d neverWT [] ("cloud.ply".toList)
      ("data/output".toList) 9 true ("obj".toList)).output_path := by
  refine ⟨rfl, rfl, rfl, ?_⟩
  decide

/-- C1 as amended: the failed terminal state of watertight repair is
reported only through the printed warning line, and success only through the
printed success line; the returned value itself is the bare mesh. -/
theorem claim_C1_amended (L : TrimeshLib) (mesh : Mesh) (res : ℕ) :
    (L.is_watertight (make_watertight L mesh res).1 = false →
      "Warning: Mesh may not be fully watertight" ∈ (make_watertight L mesh res).2) ∧
    (L.is_watertight (make_watertight L mesh res).1 = true →
      "Mesh is now watertight!" ∈ (make_watertight L mesh res).2) := by
  cases h1 : L.is_watertight mesh <;>
    cases h2 : L.is_watertight (L.fill_holes mesh) <;>
      (simp [make_watertight, h1, h2]
       try (constructor <;> (intro h3; simp [h3])))

/-- Witness for C1 as amended: on the never-watertight trimesh model the
warning line is in the print log. -/
theorem claim_C1_amended_witness :
    "Warning: Mesh may not be fully watertight" ∈ (make_watertight neverWT sampleMesh 20000).2 :=
  (claim_C1_amended neverWT sampleMesh 20000).1 rfl

/-- C5: with a density array present, clean_mesh removes exactly the
vertices with density strictly below the quantile threshold (with their
incident triangles) and then runs the degenerate, duplicate-triangle,
duplicate-vertex and non-manifold passes in that order; without densities it
runs the same four passes directly.  The third conjunct characterises the
surviving indices of the density step: an index survives exactly when it is
in range and its density is not strictly below the threshold. -/
theorem claim_C5 :
    (∀ (mesh : Mesh) (d : List ℚ) (t : ℚ),
      clean_mesh mesh (some d) t =
        remove_non_manifold_edges (remove_duplicated_vertices (remove_duplicated_triangles
          (remove_degenerate_triangles (removeVerticesByMask mesh (densityMask d t)))))) ∧
    (∀ (mesh : Mesh) (t : ℚ),
      clean_mesh mesh none t =
        remove_non_manifold_edges (remove_duplicated_vertices (remove_duplicated_triangles
          (remove_degenerate_triangles mesh)))) ∧
    (∀ (d : List ℚ) (t : ℚ) (n i : ℕ),
      i ∈ keptIndices n (densityMask d t) ↔ i < n ∧ ¬ d.getD i 0 < npQuantile d t) := by
  refine ⟨fun _ _ _ => rfl, fun _ _ => rfl, fun d t n i => ?_⟩
  simp [keptIndices, densityMask, List.mem_filter, List.mem_range]

/-- dedupKeyed never lengthens a list. -/
theorem dedupKeyed_length_le (l : List Tri) : (dedupKeyed l).length ≤ l.length := by
  induction l using dedupKeyed.induct with
  | case1 => simp [dedupKeyed]
  | case2 t ts ih =>
    rw [dedupKeyed]
    exact Nat.succ_le_succ (le_trans ih (List.length_filter_le _ _))

/-- firstDedup never lengthens a list. -/
theorem firstDedup_length_le (l : List Vec3) : (firstDedup l).length ≤ l.length := by
  induction l using firstDedup.induct with
  | case1 => simp [firstDedup]
  | case2 v vs ih =>
    rw [firstDedup]
    exact Nat.succ_le_succ (le_trans ih (List.length_filter_le _ _))

/-- The non-manifold resolution loop never lengthens the triangle list. -/
theorem removeNMLoop_length_le (vs : List Vec3) (fuel : ℕ) :
    ∀ ts : List Tri, (removeNMLoop vs fuel ts).length ≤ ts.length := by
  induction fuel with
  | zero => intro ts; simp [removeNMLoop]
  | succ fuel ih =>
    intro ts
    rw [removeNMLoop]
    split
    · exact le_refl _
    · exact le_trans (ih _) (List.Sublist.length_le (List.erase_sublist _ _))

/-- The four topology passes never increase the vertex count. -/
theorem topo_vertices_le (m : Mesh) :
    (remove_non_manifold_edges (remove_duplicated_vertices (remove_duplicated_triangles
      (remove_degenerate_triangles m)))).vertices.length ≤ m.vertices.length :=
  firstDedup_length_le m.vertices

/-- The four topology passes never increase the triangle count. -/
theorem topo_triangles_le (m : Mesh) :
    (remove_non_manifold_edges (remove_duplicated_vertices (remove_duplicated_triangles
      (remove_degenerate_triangles m)))).triangles.length ≤ m.triangles.length := by
  have h1 : (remove_degenerate_triangles m).triangles.length ≤ m.triangles.length :=
    List.length_filter_le _ _
  have h2 : (remove_duplicated_triangles (remove_degenerate_triangles m)).triangles.length ≤
      (remove_degenerate_triangles m).triangles.length := dedupKeyed_length_le _
  have h3 : (remove_duplicated_vertices (remove_duplicated_triangles
      (remove_degenerate_triangles m))).triangles.length =
      (remove_duplicated_triangles (remove_degenerate_triangles m)).triangles.length := by
    simp [remove_duplicated_vertices]
  have h4 : (remove_non_manifold_edges (remove_duplicated_vertices (remove_duplicated_triangles
      (remove_degenerate_triangles m)))).triangles.length ≤
      (remove_duplicated_vertices (remove_duplicated_triangles
        (remove_degenerate_triangles m))).triangles.length :=
    removeNMLoop_length_le _ _ _
  exact le_trans h4 (le_trans (le_of_eq h3) (le_trans h2 h1))

/-- Density-mask removal never increases the vertex count. -/
theorem rvbm_vertices_le (m : Mesh) (mask : ℕ → Bool) :
    (removeVerticesByMask m mask).vertices.length ≤ m.vertices.length := by
  have h1 := List.length_filterMap_le (fun i => m.vertices[i]?)
    (keptIndices m.vertices.length mask)
  have h2 : (keptIndices m.vertices.length mask).length ≤ m.vertices.length := by
    have h := List.length_filter_le (fun i => !mask i) (List.range m.vertices.length)
    simpa [keptIndices] using h
  exact le_trans h1 h2

/-- Density-mask removal never increases the triangle count. -/
theorem rvbm_triangles_le (m : Mesh) (mask : ℕ → Bool) :
    (removeVerticesByMask m mask).triangles.length ≤ m.triangles.length := by
  simp only [removeVerticesByMask, List.length_map]
  exact List.length_filter_le _ _

/-- C6: clean_mesh never increases the vertex count or the triangle count,
with or without a density array. -/
theorem claim_C6 (mesh : Mesh) (densities : Option (List ℚ)) (t : ℚ) :
    (clean_mesh mesh densities t).vertices.length ≤ mesh.vertices.length ∧
    (clean_mesh mesh densities t).triangles.length ≤ mesh.triangles.length := by
  cases densities with
  | none => exact ⟨topo_vertices_le mesh, topo_triangles_le mesh⟩
  | some d =>
    constructor
    · exact le_trans (topo_vertices_le _) (rvbm_vertices_le mesh _)
    · exact le_trans (topo_triangles_le _) (rvbm_triangles_le mesh _)

/-- C2, counterexample: on a loader that yields a point cloud with only two
points, convert_to_watertight_mesh raises nothing and performs the
reconstruction stage anyway, returning an output path normally — there is no
InvalidInput rejection before the stages run. -/
theorem claim_C2_counterexample :
    (sampleO3d.read_point_cloud ("cloud.ply".toList)).points.length = 2 ∧
    Stage.poisson ∈ (convert_to_watertight_mesh sampleO3d alwaysWT [] ("cloud.ply".toList)
      ("data/output".toList) 9 true ("obj".toList)).stages ∧
    (convert_to_watertight_mesh sampleO3d alwaysWT [] ("cloud.ply".toList)
      ("data/output".toList) 9 true ("obj".toList)).output_path =
      "data/output/cloud_watertight.obj".toList := by
  refine ⟨rfl, ?_, ?_⟩ <;> decide

/-- C2 as amended: convert_to_watertight_mesh performs no input validation
at all: for every loader, every input path and every parameter value, the
load, reconstruction, watertight-repair and save stages all run, and the
call returns normally. -/
theorem claim_C2_amended (O : O3dLib) (L : TrimeshLib) (fs0 : List (List Char))
    (ply dir : List Char) (depth : ℕ) (clean : Bool) (fmt : List Char) :
    Stage.load ∈ (convert_to_watertight_mesh O L fs0 ply dir depth clean fmt).stages ∧
    Stage.poisson ∈ (convert_to_watertight_mesh O L fs0 ply dir depth clean fmt).stages ∧
    Stage.watertight ∈ (convert_to_watertight_mesh O L fs0 ply dir depth clean fmt).stages ∧
    Stage.save ∈ (convert_to_watertight_mesh O L fs0 ply dir depth clean fmt).stages := by
  cases h1 : (load_point_cloud O ply).has_normals <;> cases clean <;>
    simp [convert_to_watertight_mesh, h1]

/- ---------------------------------------------------------------------
Facts about orientation propagation, for C7.
--------------------------------------------------------------------- -/

/-- orientGo only appends: positions inside the accumulator are final. -/
theorem orientGo_getElem_lt (l : List (Option ℕ × Vec3)) :
    ∀ (acc : List Vec3) (k : ℕ), k < acc.length → (orientGo acc l)[k]? = acc[k]? := by
  induction l with
  | nil => intro acc k hk; simp [orientGo]
  | cons e rest ih =>
    intro acc k hk
    rw [orientGo]
    have hk2 : k < (acc ++ [orientOne acc e]).length := by
      simp only [List.length_append, List.length_cons, List.length_nil]
      omega
    rw [ih _ k hk2, List.getElem?_append]
    simp [hk]

/-- The dot product with a negated left argument changes sign. -/
theorem dot_neg_left (v w : Vec3) : Vec3.dot v.neg w = -(Vec3.dot v w) := by
  simp [Vec3.dot, Vec3.neg]
  ring

/-- Every non-root node ends up with a normal whose dot product with the
final normal of its earlier parent is non-negative. -/
theorem orientGo_parent_dot (l : List (Option ℕ × Vec3)) :
    ∀ (acc : List Vec3) (i j : ℕ) (n : Vec3),
      l[i]? = some (some j, n) → j < acc.length + i →
      0 ≤ Vec3.dot ((orientGo acc l).getD (acc.length + i) Vec3.zero)
        ((orientGo acc l).getD j Vec3.zero) := by
  induction l with
  | nil => intro acc i j n h hj; simp at h
  | cons e rest ih =>
    intro acc i j n h hj
    cases i with
    | zero =>
      have he : e = (some j, n) := by simpa using h
      subst he
      have hj0 : j < acc.length := by simpa using hj
      rw [orientGo]
      have hlen : acc.length < (acc ++ [orientOne acc (some j, n)]).length := by
        simp
      have hx : (orientGo (acc ++ [orientOne acc (some j, n)]) rest)[acc.length]? =
          some (orientOne acc (some j, n)) := by
        rw [orientGo_getElem_lt _ _ _ hlen, List.getElem?_append_right (le_refl _)]
        simp
      have hy : (orientGo (acc ++ [orientOne acc (some j, n)]) rest)[j]? = acc[j]? := by
        rw [orientGo_getElem_lt _ _ _ (lt_trans hj0 hlen), List.getElem?_append]
        simp [hj0]
      rw [Nat.add_zero, List.getD_eq_getElem?_getD, List.getD_eq_getElem?_getD, hx, hy]
      rw [List.getElem?_eq_getElem hj0]
      simp only [Option.getD_some]
      rw [orientOne]
      split
      · rename_i hneg
        rw [dot_neg_left]
        have : Vec3.dot n (acc.getD j Vec3.zero) < 0 := hneg
        rw [List.getD_eq_getElem?_getD, List.getElem?_eq_getElem hj0] at this
        simp only [Option.getD_some] at this
        linarith
      · rename_i hpos
        have : ¬ Vec3.dot n (acc.getD j Vec3.zero) < 0 := hpos
        rw [List.getD_eq_getElem?_getD, List.getElem?_eq_getElem hj0] at this
        simp only [Option.getD_some] at this
        linarith
    | succ i2 =>
      have h2 : rest[i2]? = some (some j, n) := by simpa using h
      rw [orientGo]
      have hj2 : j < (acc ++ [orientOne acc e]).length + i2 := by
        simp only [List.length_append, List.length_cons, List.length_nil]
        omega
      have := ih (acc ++ [orientOne acc e]) i2 j n h2 hj2
      have harith : (acc ++ [orientOne acc e]).length + i2 = acc.length + (i2 + 1) := by
        simp only [List.length_append, List.length_cons, List.length_nil]
        omega
      rwa [harith] at this

/-- C7: estimate_normals computes the characteristic spacing as the mean of
the nearest-neighbour distances, estimates with hybrid search of radius
twice that spacing bounded to 30 neighbours, and orients over the tangent
plane structure with k = 15; and in the propagation model every node whose
parent precedes it ends up with a normal whose dot product with the parent
normal is non-negative (a flipped normal whenever it was negative). -/
theorem claim_C7 :
    (∀ (O : O3dLib) (pcd : PointCloud),
      estimate_normals O pcd =
        O.orient_normals_ctp
          (O.estimate_normals_hybrid pcd (mean (O.nn_distances pcd) * 2) 30) 15) ∧
    (∀ (l : List (Option ℕ × Vec3)) (i j : ℕ) (n : Vec3),
      l[i]? = some (some j, n) → j < i →
      0 ≤ Vec3.dot ((orientPropagate l).getD i Vec3.zero)
        ((orientPropagate l).getD j Vec3.zero)) := by
  refine ⟨fun _ _ => rfl, fun l i j n h hj => ?_⟩
  have hx := orientGo_parent_dot l [] i j n h (by simpa using hj)
  simpa [orientPropagate] using hx

/-- Nodes for the C7 witness: a root and one child with an inverted
candidate normal. -/
def orientSampleNodes : List (Option ℕ × Vec3) :=
  [(none, ⟨0, 0, 1⟩), (some 0, ⟨0, 0, -1⟩)]

/-- Witness for C7: the child with candidate normal opposite to its parent
is flipped to agree with it. -/
theorem claim_C7_witness :
    orientSampleNodes[1]? = some (some 0, ⟨0, 0, -1⟩) ∧
    0 ≤ Vec3.dot ((orientPropagate orientSampleNodes).getD 1 Vec3.zero)
      ((orientPropagate orientSampleNodes).getD 0 Vec3.zero) :=
  ⟨rfl, claim_C7.2 orientSampleNodes 1 0 ⟨0, 0, -1⟩ rfl (by decide)⟩

/- ---------------------------------------------------------------------
Facts about the path model, for C8 and C10.
--------------------------------------------------------------------- -/

/-- takeWhile over an append whose first part satisfies the predicate. -/
theorem takeWhile_append_all {p : Char → Bool} {l1 l2 : List Char}
    (h : ∀ c ∈ l1, p c = true) :
    (l1 ++ l2).takeWhile p = l1 ++ l2.takeWhile p := by
  induction l1 with
  | nil => simp
  | cons a l ih =>
    simp only [List.cons_append, List.takeWhile_cons]
    rw [h a (by simp)]
    simp only [if_true]
    rw [ih (fun c hc => h c (by simp [hc]))]

/-- dropWhile over an append whose first part satisfies the predicate. -/
theorem dropWhile_append_all {p : Char → Bool} {l1 l2 : List Char}
    (h : ∀ c ∈ l1, p c = true) :
    (l1 ++ l2).dropWhile p = l2.dropWhile p := by
  induction l1 with
  | nil => simp
  | cons a l ih =>
    simp only [List.cons_append, List.dropWhile_cons]
    rw [h a (by simp)]
    simp only [if_true]
    exact ih (fun c hc => h c (by simp [hc]))

/-- The head of a nonempty dropWhile result falsifies the predicate. -/
theorem dropWhile_head_not {p : Char → Bool} (l : List Char) :
    ∀ a t, l.dropWhile p = a :: t → p a = false := by
  induction l with
  | nil => intro a t h; simp at h
  | cons b l ih =>
    intro a t h
    rw [List.dropWhile_cons] at h
    by_cases hb : p b = true
    · rw [if_pos hb] at h
      exact ih a t h
    · rw [if_neg hb] at h
      cases h
      simpa using hb

/-- Splitting recomposes the path. -/
theorem splitLast_eq (p : List Char) : (splitLast p).1 ++ (splitLast p).2 = p := by
  unfold splitLast
  rw [← List.reverse_append, List.takeWhile_append_dropWhile, List.reverse_reverse]

/-- The final component contains no slash. -/
theorem lastComponent_no_slash (p : List Char) : '/' ∉ lastComponent p := by
  intro h
  rw [lastComponent, List.mem_reverse] at h
  have hx := List.mem_takeWhile_imp h
  simp at hx

/-- The stem contains no slash. -/
theorem pyStem_no_slash (p : List Char) : '/' ∉ pyStem p := fun h =>
  lastComponent_no_slash p (List.mem_of_mem_take h)

/-- Splitting an explicit directory-plus-name concatenation recovers the two
parts, when the name has no slash and the directory part is empty or ends in
a slash. -/
theorem splitLast_append (d n : List Char) (hn : '/' ∉ n)
    (hd : d = [] ∨ d.getLast? = some '/') : splitLast (d ++ n) = (d, n) := by
  have hall : ∀ c ∈ n.reverse, (fun c => decide (c ≠ '/')) c = true := by
    intro c hc
    rw [List.mem_reverse] at hc
    simp only [decide_eq_true_eq]
    intro he
    exact hn (he ▸ hc)
  have hstop : d.reverse.takeWhile (fun c => decide (c ≠ '/')) = [] ∧
      d.reverse.dropWhile (fun c => decide (c ≠ '/')) = d.reverse := by
    rcases hd with hd | hd
    · subst hd; simp
    · have hh : d.reverse.head? = some '/' := by
        rw [List.head?_reverse]; exact hd
      cases hr : d.reverse with
      | nil => rw [hr] at hh; simp at hh
      | cons a t =>
        rw [hr] at hh
        simp only [List.head?_cons, Option.some.injEq] at hh
        subst hh
        constructor
        · rw [List.takeWhile_cons]
          simp
        · rw [List.dropWhile_cons]
          simp
  unfold splitLast
  rw [List.reverse_append, takeWhile_append_all hall, dropWhile_append_all hall,
    hstop.1, hstop.2]
  simp

/-- The pathlib suffix of base ++ dot ++ ext is exactly dot ++ ext when the
base is nonempty, the extension is nonempty, and the extension has no dot. -/
theorem pySuffix_append_ext (b e : List Char) (hb : b ≠ []) (he : e ≠ [])
    (hd : '.' ∉ e) : pySuffix (b ++ '.' :: e) = '.' :: e := by
  have hall : ∀ c ∈ e.reverse, (fun c => decide (c ≠ '.')) c = true := by
    intro c hc
    rw [List.mem_reverse] at hc
    simp only [decide_eq_true_eq]
    intro hx
    exact hd (hx ▸ hc)
  have hrev : (b ++ '.' :: e).reverse = e.reverse ++ '.' :: b.reverse := by
    rw [List.reverse_append, List.reverse_cons, List.append_assoc, List.singleton_append]
  simp only [pySuffix]
  rw [hrev, takeWhile_append_all hall, dropWhile_append_all hall]
  simp [List.takeWhile_cons, List.dropWhile_cons, hb, he]

/-- When a name has a nonempty pathlib suffix it decomposes as
base ++ suffix with a nonempty base and the suffix of the shape
dot ++ extension, the extension dot-free and nonempty. -/
theorem pySuffix_decomp (name : List Char) (h : pySuffix name ≠ []) :
    ∃ b e, name = b ++ '.' :: e ∧ b ≠ [] ∧ e ≠ [] ∧ '.' ∉ e ∧
      pySuffix name = '.' :: e := by
  cases hrest : name.reverse.dropWhile (fun c => decide (c ≠ '.')) with
  | nil =>
    exfalso
    apply h
    simp only [pySuffix, hrest]
  | cons a baseRev =>
    by_cases hcond : baseRev = [] ∨ name.reverse.takeWhile (fun c => decide (c ≠ '.')) = []
    · exfalso
      apply h
      simp only [pySuffix, hrest]
      rw [if_pos hcond]
    · push_neg at hcond
      have hps : pySuffix name =
          '.' :: (name.reverse.takeWhile (fun c => decide (c ≠ '.'))).reverse := by
        simp only [pySuffix, hrest]
        rw [if_neg (not_or.mpr ⟨hcond.1, hcond.2⟩)]
      have ha : a = '.' := by
        have hx := dropWhile_head_not name.reverse a baseRev hrest
        simpa using hx
      subst ha
      refine ⟨baseRev.reverse, (name.reverse.takeWhile (fun c => decide (c ≠ '.'))).reverse,
        ?_, ?_, ?_, ?_, hps⟩
      · have hsplit := List.takeWhile_append_dropWhile (fun c => decide (c ≠ '.')) name.reverse
        rw [hrest] at hsplit
        have hrev2 : (List.takeWhile (fun c => decide (c ≠ '.')) name.reverse ++
            '.' :: baseRev).reverse =
            baseRev.reverse ++
              '.' :: (List.takeWhile (fun c => decide (c ≠ '.')) name.reverse).reverse := by
          rw [List.reverse_append, List.reverse_cons, List.append_assoc, List.singleton_append]
        rw [← hrev2, hsplit, List.reverse_reverse]
      · simpa using hcond.1
      · simpa using hcond.2
      · intro hc
        rw [List.mem_reverse] at hc
        have hx := List.mem_takeWhile_imp hc
        simp at hx

/-- The surgery of with_suffix rewrites the final component into a nonempty
slash-free base followed by the new suffix. -/
theorem pyWithSuffix_name (p fmt : List Char) (h0 : lastComponent p ≠ []) :
    ∃ b : List Char, b ≠ [] ∧ '/' ∉ b ∧
      pyWithSuffix p ('.' :: fmt) = (splitLast p).1 ++ (b ++ '.' :: fmt) := by
  by_cases hold : pySuffix (splitLast p).2 = []
  · refine ⟨(splitLast p).2, h0, lastComponent_no_slash p, ?_⟩
    simp [pyWithSuffix, hold]
  · obtain ⟨b0, e0, hn_eq, hb0, he0, hd0, hps⟩ := pySuffix_decomp _ hold
    refine ⟨b0, hb0, ?_, ?_⟩
    · intro hc
      have hin : ('/' : Char) ∈ (splitLast p).2 := by
        rw [hn_eq]
        exact List.mem_append.mpr (Or.inl hc)
      exact lastComponent_no_slash p hin
    · simp only [pyWithSuffix]
      rw [if_neg hold]
      congr 1
      congr 1
      rw [hps, hn_eq]
      have hl : (b0 ++ '.' :: e0).length - ('.' :: e0).length = b0.length := by
        simp only [List.length_append, List.length_cons]
        omega
      rw [hl]
      exact List.take_left _ _

/-- The directory part produced by splitting is empty or ends in a slash. -/
theorem splitLast_dir (p : List Char) :
    (splitLast p).1 = [] ∨ (splitLast p).1.getLast? = some '/' := by
  cases hdw : p.reverse.dropWhile (fun c => decide (c ≠ '/')) with
  | nil =>
    left
    show (p.reverse.dropWhile (fun c => decide (c ≠ '/'))).reverse = []
    rw [hdw]
    rfl
  | cons a t =>
    right
    have ha : a = '/' := by
      have hx := dropWhile_head_not p.reverse a t hdw
      simpa using hx
    subst ha
    show (p.reverse.dropWhile (fun c => decide (c ≠ '/'))).reverse.getLast? = some '/'
    rw [hdw, List.getLast?_reverse]
    rfl

/-- After with_suffix the final component carries exactly the new suffix:
the extension of the result is the requested one, whatever extension the
original path had. -/
theorem pyWithSuffix_suffix (p fmt : List Char) (h0 : lastComponent p ≠ [])
    (h1 : fmt ≠ []) (h2 : '.' ∉ fmt) (h3 : '/' ∉ fmt) :
    pySuffix (lastComponent (pyWithSuffix p ('.' :: fmt))) = '.' :: fmt := by
  obtain ⟨b, hb, hbs, heq⟩ := pyWithSuffix_name p fmt h0
  have hname_s : '/' ∉ b ++ '.' :: fmt := by
    intro hc
    rcases List.mem_append.mp hc with hc | hc
    · exact hbs hc
    · rcases List.mem_cons.mp hc with hc | hc
      · exact absurd hc (by decide)
      · exact h3 hc
  have hsp := splitLast_append (splitLast p).1 (b ++ '.' :: fmt) hname_s (splitLast_dir p)
  have hlast : lastComponent (pyWithSuffix p ('.' :: fmt)) = b ++ '.' :: fmt := by
    rw [heq]
    show (splitLast ((splitLast p).1 ++ (b ++ '.' :: fmt))).2 = b ++ '.' :: fmt
    rw [hsp]
  rw [hlast]
  exact pySuffix_append_ext b fmt hb h1 h2

/-- C8: save_mesh returns the supplied path with its extension replaced by
the chosen format (whatever extension, if any, the path carried), and the
export artefact carries the vertex array and triangle array verbatim — no
coordinate transformation, vertex order and winding preserved. -/
theorem claim_C8 (mesh : Mesh) (p fmt : List Char) (h0 : lastComponent p ≠ [])
    (h1 : fmt ≠ []) (h2 : '.' ∉ fmt) (h3 : '/' ∉ fmt) :
    (save_mesh mesh p fmt).1 = pyWithSuffix p ('.' :: fmt) ∧
    pySuffix (lastComponent (save_mesh mesh p fmt).1) = '.' :: fmt ∧
    (save_mesh mesh p fmt).2.vertices = mesh.vertices ∧
    (save_mesh mesh p fmt).2.faces = mesh.triangles := by
  refine ⟨rfl, ?_, rfl, rfl⟩
  exact pyWithSuffix_suffix p fmt h0 h1 h2 h3

/-- Witness for C8 on a concrete path whose extension differs from the
requested format. -/
theorem claim_C8_witness :
    lastComponent ("data/out.txt".toList) ≠ [] ∧
    ((save_mesh sampleMesh ("data/out.txt".toList) ("obj".toList)).1 =
      pyWithSuffix ("data/out.txt".toList) ('.' :: "obj".toList) ∧
    pySuffix (lastComponent (save_mesh sampleMesh ("data/out.txt".toList)
      ("obj".toList)).1) = '.' :: "obj".toList ∧
    (save_mesh sampleMesh ("data/out.txt".toList) ("obj".toList)).2.vertices =
      sampleMesh.vertices ∧
    (save_mesh sampleMesh ("data/out.txt".toList) ("obj".toList)).2.faces =
      sampleMesh.triangles) :=
  ⟨by decide, claim_C8 sampleMesh ("data/out.txt".toList) ("obj".toList) (by decide)
    (by decide) (by decide) (by decide)⟩

/-- with_suffix is the identity on a path whose final component already ends
with the requested suffix. -/
theorem pyWithSuffix_of_name (d b fmt : List Char)
    (hd : d = [] ∨ d.getLast? = some '/') (hb : b ≠ []) (hbs : '/' ∉ b)
    (hf : fmt ≠ []) (hfd : '.' ∉ fmt) (hfs : '/' ∉ fmt) :
    pyWithSuffix (d ++ (b ++ '.' :: fmt)) ('.' :: fmt) = d ++ (b ++ '.' :: fmt) := by
  have hname_s : '/' ∉ b ++ '.' :: fmt := by
    intro hc
    rcases List.mem_append.mp hc with hc | hc
    · exact hbs hc
    · rcases List.mem_cons.mp hc with hc | hc
      · exact absurd hc (by decide)
      · exact hfs hc
  have hsp := splitLast_append d (b ++ '.' :: fmt) hname_s hd
  have hsuf : pySuffix (b ++ '.' :: fmt) = '.' :: fmt :=
    pySuffix_append_ext b fmt hb hf hfd
  simp only [pyWithSuffix, hsp]
  rw [hsuf]
  rw [if_neg (by simp)]
  congr 1
  have hl : (b ++ '.' :: fmt).length - ('.' :: fmt).length = b.length := by
    simp only [List.length_append, List.length_cons]
    omega
  rw [hl, List.take_left]

/-- os.path.join of a directory and a slash-free name appends the name after
a directory part that is empty or ends in a slash. -/
theorem osPathJoin_eq (dir0 n : List Char) (hn : '/' ∉ n) :
    ∃ d, osPathJoin dir0 n = d ++ n ∧ (d = [] ∨ d.getLast? = some '/') := by
  have hh : ¬ n.head? = some '/' := by
    cases n with
    | nil => simp
    | cons c t =>
      simp only [List.head?_cons, Option.some.injEq]
      intro hc
      subst hc
      exact hn (List.mem_cons_self _ _)
  unfold osPathJoin
  rw [if_neg hh]
  by_cases hcase : dir0 = [] ∨ dir0.getLast? = some '/'
  · rw [if_pos hcase]
    exact ⟨dir0, rfl, hcase⟩
  · rw [if_neg hcase]
    refine ⟨dir0 ++ ['/'], ?_, Or.inr (List.getLast?_concat dir0)⟩
    rw [List.append_assoc, List.singleton_append]

/-- C10: the pipeline first ensures the output directory exists (keeping any
directories that already existed, succeeding silently when the directory was
present), and the returned path is exactly the output directory joined with
stem_watertight.format. -/
theorem claim_C10 (O : O3dLib) (L : TrimeshLib) (fs0 : List (List Char))
    (ply dir : List Char) (depth : ℕ) (clean : Bool) (fmt : List Char)
    (h1 : fmt ≠ []) (h2 : '.' ∉ fmt) (h3 : '/' ∉ fmt) :
    dir ∈ (convert_to_watertight_mesh O L fs0 ply dir depth clean fmt).fs ∧
    (∀ e ∈ fs0, e ∈ (convert_to_watertight_mesh O L fs0 ply dir depth clean fmt).fs) ∧
    (convert_to_watertight_mesh O L fs0 ply dir depth clean fmt).output_path =
      osPathJoin dir (pyStem ply ++ "_watertight.".toList ++ fmt) := by
  refine ⟨?_, ?_, ?_⟩
  · by_cases hm : dir ∈ fs0 <;> simp [convert_to_watertight_mesh, hm]
  · intro e he
    by_cases hm : dir ∈ fs0 <;> simp [convert_to_watertight_mesh, hm, he]
  · have hstep1 : (convert_to_watertight_mesh O L fs0 ply dir depth clean fmt).output_path =
        pyWithSuffix (osPathJoin dir (pyStem ply ++ "_watertight.".toList ++ fmt))
          ('.' :: fmt) := rfl
    rw [hstep1]
    have hw : "_watertight.".toList = "_watertight".toList ++ ['.'] := rfl
    have hE : pyStem ply ++ "_watertight.".toList ++ fmt =
        (pyStem ply ++ "_watertight".toList) ++ '.' :: fmt := by
      simp [hw, List.append_assoc]
    have hb : (pyStem ply ++ "_watertight".toList) ≠ [] := by
      intro hx
      have hlen := congrArg List.length hx
      simp at hlen
    have hbs : '/' ∉ pyStem ply ++ "_watertight".toList := by
      intro hc
      rcases List.mem_append.mp hc with hc | hc
      · exact pyStem_no_slash ply hc
      · exact absurd hc (by decide)
    have hnall : '/' ∉ (pyStem ply ++ "_watertight".toList) ++ '.' :: fmt := by
      intro hc
      rcases List.mem_append.mp hc with hc | hc
      · exact hbs hc
      · rcases List.mem_cons.mp hc with hc | hc
        · exact absurd hc (by decide)
        · exact h3 hc
    obtain ⟨d0, hjoin, hd0⟩ :=
      osPathJoin_eq dir ((pyStem ply ++ "_watertight".toList) ++ '.' :: fmt) hnall
    rw [hE, hjoin]
    exact pyWithSuffix_of_name d0 (pyStem ply ++ "_watertight".toList) fmt hd0 hb hbs h1 h2 h3

/-- Witness for C10 on concrete inputs. -/
theorem claim_C10_witness :
    ("obj".toList ≠ [] ∧ '.' ∉ "obj".toList ∧ '/' ∉ "obj".toList) ∧
    ("data/output".toList ∈ (convert_to_watertight_mesh sampleO3d alwaysWT []
      ("cloud.ply".toList) ("data/output".toList) 9 true ("obj".toList)).fs ∧
    (∀ e ∈ ([] : List (List Char)), e ∈ (convert_to_watertight_mesh sampleO3d alwaysWT []
      ("cloud.ply".toList) ("data/output".toList) 9 true ("obj".toList)).fs) ∧
    (convert_to_watertight_mesh sampleO3d alwaysWT [] ("cloud.ply".toList)
      ("data/output".toList) 9 true ("obj".toList)).output_path =
      osPathJoin ("data/output".toList)
        (pyStem ("cloud.ply".toList) ++ "_watertight.".toList ++ "obj".toList)) :=
  ⟨⟨by decide, by decide, by decide⟩,
    claim_C10 sampleO3d alwaysWT [] ("cloud.ply".toList) ("data/output".toList) 9 true
      ("obj".toList) (by decide) (by decide) (by decide)⟩
